import Mathlib

/-!
# Verification of the whisper-paste session core

Shallow embedding of the hotkey-triggered dictation pipeline:
the linear-interpolation resampler, the bounded waveform window,
the WAV encoding boundary, the session controller's toggle and
capture-completion logic, and the overlay's writes to shared state.

Real-number audio samples (`f32`/`f64` in the source) are embedded as
rationals `ℚ`, the exact idealization of the source's floating-point
arithmetic; machine integers are `ℕ`/`ℤ` with explicit wrap-around where
the width matters.
-/

/-- `TARGET_SAMPLE_RATE` constant from `audio.rs`. -/
def TARGET_SAMPLE_RATE : ℕ := 16000

/-- `WAVEFORM_SIZE` constant from `audio.rs`. -/
def WAVEFORM_SIZE : ℕ := 2048

/-- Body of the `resample` loop in `audio.rs` (lines 97-108) for output
index `i`: source position `i * ratio`, integer part `idx`, fractional
part `frac`; linear interpolation when `idx + 1` is in range, else clamp
to `min idx (len - 1)`. -/
def resampleBody (samples : List ℚ) (ratio : ℚ) (i : ℕ) : ℚ :=
  let srcIdx : ℚ := (i : ℚ) * ratio
  let idx : ℕ := ⌊srcIdx⌋.toNat
  let frac : ℚ := srcIdx - (idx : ℚ)
  if idx + 1 < samples.length then
    samples.getD idx 0 * (1 - frac) + samples.getD (idx + 1) 0 * frac
  else
    samples.getD (min idx (samples.length - 1)) 0

/-- `resample` from `audio.rs` (lines 88-111): identity on empty input or
equal rates; otherwise `ratio = from_rate / to_rate`,
`out_len = trunc (len / ratio)`, and one interpolated sample per output
index. -/
def resample (samples : List ℚ) (from_rate to_rate : ℕ) : List ℚ :=
  if samples.isEmpty ∨ from_rate = to_rate then samples
  else
    let ratio : ℚ := (from_rate : ℚ) / (to_rate : ℚ)
    let outLen : ℕ := ⌊(samples.length : ℚ) / ratio⌋.toNat
    (List.range outLen).map (resampleBody samples ratio)

/-- C4: `resample(x, r, r) = x` and `resample([], r1, r2) = []`
(identity on equal rates and on empty input). -/
theorem resample_identity (x : List ℚ) (r r1 r2 : ℕ) :
    resample x r r = x ∧ resample [] r1 r2 = [] := by
  constructor
  · simp [resample]
  · simp [resample]

/-- Waveform feed step from the audio callback in `audio.rs` (lines 50-58):
append the mono batch, then drain the oldest samples once the window
exceeds `WAVEFORM_SIZE`. -/
def feedWaveform (wf mono : List ℚ) : List ℚ :=
  let wf2 := wf ++ mono
  if WAVEFORM_SIZE < wf2.length then
    wf2.drop (wf2.length - WAVEFORM_SIZE)
  else
    wf2

theorem feedWaveform_length_le (wf mono : List ℚ) :
    (feedWaveform wf mono).length ≤ WAVEFORM_SIZE := by
  simp only [feedWaveform]
  split
  · next h => simp only [List.length_drop]; omega
  · next h => simp only [List.length_append] at h ⊢; omega

theorem feedWaveform_foldl_length_le (batches : List (List ℚ)) :
    ∀ wf : List ℚ, wf.length ≤ WAVEFORM_SIZE →
      (batches.foldl feedWaveform wf).length ≤ WAVEFORM_SIZE := by
  induction batches with
  | nil => intro wf h; simpa using h
  | cons b bs ih =>
      intro wf _
      simpa using ih (feedWaveform wf b) (feedWaveform_length_le wf b)

/-- C6: after every append-and-trim step the waveform window holds at most
`WAVEFORM_SIZE = 2048` samples, for any number and size of appends
starting from the cleared window. -/
theorem waveform_window_bounded :
    (∀ wf mono : List ℚ, (feedWaveform wf mono).length ≤ WAVEFORM_SIZE) ∧
    (∀ batches : List (List ℚ),
      (batches.foldl feedWaveform []).length ≤ WAVEFORM_SIZE) := by
  refine ⟨feedWaveform_length_le, fun batches => ?_⟩
  exact feedWaveform_foldl_length_le batches [] (by simp [WAVEFORM_SIZE])

/-- Checked variant of `resampleBody`: every index access goes through
`List.get?`, so an out-of-range access (a panic in the source) yields
`none`. -/
def resampleBodyChecked (samples : List ℚ) (ratio : ℚ) (i : ℕ) : Option ℚ :=
  let srcIdx : ℚ := (i : ℚ) * ratio
  let idx : ℕ := ⌊srcIdx⌋.toNat
  let frac : ℚ := srcIdx - (idx : ℚ)
  if idx + 1 < samples.length then
    (samples.get? idx).bind fun a =>
      (samples.get? (idx + 1)).bind fun b =>
        some (a * (1 - frac) + b * frac)
  else
    samples.get? (min idx (samples.length - 1))

/-- Sequence a list of checked per-index computations, mirroring the
source loop that pushes one sample per output index. -/
def collectChecked (g : ℕ → Option ℚ) : List ℕ → Option (List ℚ)
  | [] => some []
  | i :: l => (g i).bind fun x => (collectChecked g l).bind fun xs => some (x :: xs)

/-- Checked variant of `resample`: `none` exactly when some index access
of the source loop would be out of bounds. -/
def resampleChecked (samples : List ℚ) (from_rate to_rate : ℕ) : Option (List ℚ) :=
  if samples.isEmpty ∨ from_rate = to_rate then some samples
  else
    let ratio : ℚ := (from_rate : ℚ) / (to_rate : ℚ)
    let outLen : ℕ := ⌊(samples.length : ℚ) / ratio⌋.toNat
    collectChecked (resampleBodyChecked samples ratio) (List.range outLen)

theorem collectChecked_eq_map (g : ℕ → Option ℚ) (f : ℕ → ℚ) :
    ∀ l : List ℕ, (∀ i ∈ l, g i = some (f i)) →
      collectChecked g l = some (l.map f) := by
  intro l
  induction l with
  | nil => intro _; rfl
  | cons a l ih =>
      intro h
      have ha := h a (List.mem_cons_self a l)
      have hl := ih fun i hi => h i (List.mem_cons_of_mem a hi)
      simp [collectChecked, ha, hl]

theorem get?_eq_some_getD (l : List ℚ) (i : ℕ) (h : i < l.length) :
    l.get? i = some (l.getD i 0) := by
  rw [List.getD_eq_getElem _ _ h, List.get?_eq_getElem?, List.getElem?_eq_getElem h]

theorem resampleBodyChecked_eq (samples : List ℚ) (ratio : ℚ) (i : ℕ)
    (hne : samples ≠ []) :
    resampleBodyChecked samples ratio i = some (resampleBody samples ratio i) := by
  have hlen : 0 < samples.length := List.length_pos.mpr hne
  simp only [resampleBodyChecked, resampleBody]
  split
  · next h =>
      rw [get?_eq_some_getD _ _ (by omega), get?_eq_some_getD _ _ h]
      rfl
  · next h =>
      rw [get?_eq_some_getD _ _ (by omega)]

/-- C10: the resampler is total — every index access it performs is in
bounds, so the checked interpreter returns exactly the unchecked result
for all inputs and all rate pairs. -/
theorem resample_total (samples : List ℚ) (from_rate to_rate : ℕ) :
    resampleChecked samples from_rate to_rate =
      some (resample samples from_rate to_rate) := by
  simp only [resampleChecked, resample]
  split
  · rfl
  · next h =>
      have hne : samples ≠ [] := by
        intro hnil
        exact h (Or.inl (by simp [hnil]))
      exact collectChecked_eq_map _ _ _
        (fun i _ => resampleBodyChecked_eq samples _ i hne)

/-- Spec's claimed output length, from its own words: `floor(input_length
/ ratio)` with `ratio = source_rate / target_rate`. -/
def resampleSpecLen (s : List ℚ) (from_rate to_rate : ℕ) : ℤ :=
  ⌊(s.length : ℚ) / ((from_rate : ℚ) / (to_rate : ℚ))⌋

/-- Spec's claimed output sample at index `i`, from its own words:
`base = floor(i * ratio)`, `frac = i * ratio - base`; interpolate when
`base + 1` is in range, else clamp to `input[min(base, len - 1)]`. -/
def resampleSpecAt (s : List ℚ) (from_rate to_rate : ℕ) (i : ℕ) : ℚ :=
  let ratio : ℚ := (from_rate : ℚ) / (to_rate : ℚ)
  let base : ℤ := ⌊(i : ℚ) * ratio⌋
  let frac : ℚ := (i : ℚ) * ratio - (base : ℚ)
  if base.toNat + 1 < s.length then
    s.getD base.toNat 0 * (1 - frac) + s.getD (base.toNat + 1) 0 * frac
  else
    s.getD (min base.toNat (s.length - 1)) 0

theorem resample_of_ne (s : List ℚ) (f t : ℕ) (hs : s ≠ []) (hft : f ≠ t) :
    resample s f t =
      (List.range ⌊(s.length : ℚ) / ((f : ℚ) / (t : ℚ))⌋.toNat).map
        (resampleBody s ((f : ℚ) / (t : ℚ))) := by
  simp only [resample]
  rw [if_neg]
  simp [hs, hft]

/-- C3: on non-empty input with distinct rates, the resampler's output
length is `floor(len / ratio)` and every output sample matches the
spec's linear-interpolation formula. -/
theorem resample_matches_spec (s : List ℚ) (f t : ℕ) (hs : s ≠ []) (hft : f ≠ t) :
    ((resample s f t).length : ℤ) = resampleSpecLen s f t ∧
    ∀ i : ℕ, i < (resample s f t).length →
      (resample s f t).getD i 0 = resampleSpecAt s f t i := by
  have hratio : (0 : ℚ) ≤ (f : ℚ) / (t : ℚ) :=
    div_nonneg (Nat.cast_nonneg f) (Nat.cast_nonneg t)
  have hq : (0 : ℚ) ≤ (s.length : ℚ) / ((f : ℚ) / (t : ℚ)) :=
    div_nonneg (Nat.cast_nonneg s.length) hratio
  rw [resample_of_ne s f t hs hft]
  constructor
  · simp only [List.length_map, List.length_range, resampleSpecLen]
    exact_mod_cast Int.toNat_of_nonneg (Int.floor_nonneg.mpr hq)
  · intro i hi
    simp only [List.length_map, List.length_range] at hi
    have hlen : i < ((List.range ⌊(s.length : ℚ) / ((f : ℚ) / (t : ℚ))⌋.toNat).map
        (resampleBody s ((f : ℚ) / (t : ℚ)))).length := by
      simpa using hi
    rw [List.getD_eq_getElem _ _ hlen]
    simp only [List.getElem_map, List.getElem_range]
    have hsrc : (0 : ℚ) ≤ (i : ℚ) * ((f : ℚ) / (t : ℚ)) :=
      mul_nonneg (Nat.cast_nonneg i) hratio
    have hcast : ((⌊(i : ℚ) * ((f : ℚ) / (t : ℚ))⌋.toNat : ℕ) : ℚ) =
        ((⌊(i : ℚ) * ((f : ℚ) / (t : ℚ))⌋ : ℤ) : ℚ) := by
      exact_mod_cast congrArg (fun z : ℤ => (z : ℚ))
        (Int.toNat_of_nonneg (Int.floor_nonneg.mpr hsrc))
    simp only [resampleBody, resampleSpecAt, hcast]

/-- C5: for non-empty input and positive rates, the output length is
within 1 of `len(x) * r2 / r1`. -/
theorem resample_length_within_one (x : List ℚ) (r1 r2 : ℕ) (hx : x ≠ [])
    (h1 : 0 < r1) (h2 : 0 < r2) :
    |((resample x r1 r2).length : ℚ) - (x.length : ℚ) * (r2 : ℚ) / (r1 : ℚ)| ≤ 1 := by
  have hr1 : ((r1 : ℚ)) ≠ 0 := by positivity
  have hr2 : ((r2 : ℚ)) ≠ 0 := by positivity
  by_cases hr : r1 = r2
  · subst hr
    have hid : resample x r1 r1 = x := by simp [resample]
    rw [hid]
    have : (x.length : ℚ) * (r1 : ℚ) / (r1 : ℚ) = (x.length : ℚ) := by
      field_simp
    rw [this, sub_self, abs_zero]
    exact zero_le_one
  · rw [resample_of_ne x r1 r2 hx hr]
    have hq : (x.length : ℚ) / ((r1 : ℚ) / (r2 : ℚ)) =
        (x.length : ℚ) * (r2 : ℚ) / (r1 : ℚ) := by
      rw [div_div_eq_mul_div]
    set q : ℚ := (x.length : ℚ) / ((r1 : ℚ) / (r2 : ℚ)) with hqdef
    have hq0 : (0 : ℚ) ≤ q :=
      div_nonneg (Nat.cast_nonneg x.length)
        (div_nonneg (Nat.cast_nonneg r1) (Nat.cast_nonneg r2))
    have hfloor : ((⌊q⌋.toNat : ℕ) : ℚ) = ((⌊q⌋ : ℤ) : ℚ) := by
      exact_mod_cast congrArg (fun z : ℤ => (z : ℚ))
        (Int.toNat_of_nonneg (Int.floor_nonneg.mpr hq0))
    have hle : ((⌊q⌋ : ℤ) : ℚ) ≤ q := Int.floor_le q
    have hlt : q < ((⌊q⌋ : ℤ) : ℚ) + 1 := Int.lt_floor_add_one q
    rw [List.length_map, List.length_range, hfloor, ← hq]
    rw [abs_le]
    constructor <;> linarith

theorem resample_length_within_one_witness :
    |((resample [1, 2, 3] 48000 16000).length : ℚ) -
      (([1, 2, 3] : List ℚ).length : ℚ) * ((16000 : ℕ) : ℚ) / ((48000 : ℕ) : ℚ)| ≤ 1 :=
  resample_length_within_one [1, 2, 3] 48000 16000 (by decide) (by decide) (by decide)

theorem resample_matches_spec_witness :
    ((resample [1, 2] 2 1).length : ℤ) = resampleSpecLen [1, 2] 2 1 ∧
    (resample [1, 2] 2 1).getD 0 0 = resampleSpecAt [1, 2] 2 1 0 :=
  ⟨(resample_matches_spec [1, 2] 2 1 (by decide) (by decide)).1,
   (resample_matches_spec [1, 2] 2 1 (by decide) (by decide)).2 0 (by
      rw [resample_of_ne [1, 2] 2 1 (by decide) (by decide)]
      simp only [List.length_map, List.length_range]
      norm_num)⟩

/-- Little-endian encoding of a 16-bit field, as the WAV container
stores it. -/
def u16le (v : ℕ) : List ℕ := [v % 256, v / 256 % 256]

/-- Little-endian encoding of a 32-bit field, as the WAV container
stores it. -/
def u32le (v : ℕ) : List ℕ :=
  [v % 256, v / 256 % 256, v / 65536 % 256, v / 16777216 % 256]

/-- Truncation toward zero, the semantics of Rust's float-to-integer
`as` cast on an in-range value. -/
def truncQ (q : ℚ) : ℤ := if 0 ≤ q then ⌊q⌋ else ⌈q⌉

/-- Per-sample conversion in `samples_to_wav` (`audio.rs` line 124):
scale by `i16::MAX = 32767`, clamp to `[i16::MIN, i16::MAX]`, cast to
`i16`. -/
def sampleToI16 (s : ℚ) : ℤ :=
  truncQ (min (max (s * 32767) (-32768)) 32767)

/-- Two's-complement little-endian bytes of a 16-bit signed value. -/
def i16le (v : ℤ) : List ℕ := u16le (v % 65536).toNat

/-- Modelled from the spec: the 44-byte RIFF/WAVE header the external
`hound` writer produces for the spec's encoding contract — PCM16
(format 1, 16 bits), 1 channel, `TARGET_SAMPLE_RATE`, with the standard
RIFF, `fmt ` and `data` chunks. -/
def wavHeader (numSamples : ℕ) : List ℕ :=
  let dataSize := 2 * numSamples
  [82, 73, 70, 70] ++ u32le (36 + dataSize) ++ [87, 65, 86, 69] ++
  [102, 109, 116, 32] ++ u32le 16 ++
  u16le 1 ++ u16le 1 ++ u32le TARGET_SAMPLE_RATE ++
  u32le (TARGET_SAMPLE_RATE * 2) ++ u16le 2 ++ u16le 16 ++
  [100, 97, 116, 97] ++ u32le dataSize

/-- PCM16 payload: each sample scaled, clamped and emitted as two
little-endian bytes. -/
def wavData : List ℚ → List ℕ
  | [] => []
  | s :: rest => i16le (sampleToI16 s) ++ wavData rest

/-- `samples_to_wav` from `audio.rs` (lines 113-130): header for
`numSamples` followed by the PCM16 payload. -/
def samplesToWav (samples : List ℚ) : List ℕ :=
  wavHeader samples.length ++ wavData samples

/-- Modelled from the spec: the external WAV reader's view of the
artifact — it checks the RIFF/WAVE/`fmt `/`data` magic values and
reports the declared channel count, sample rate, and number of 16-bit
samples. -/
def wavDecode (b : List ℕ) : Option (ℕ × ℕ × ℕ) :=
  match b with
  | g0 :: g1 :: g2 :: g3 :: _ :: _ :: _ :: _ ::
    w0 :: w1 :: w2 :: w3 ::
    f0 :: f1 :: f2 :: f3 :: _ :: _ :: _ :: _ ::
    _ :: _ :: c0 :: c1 ::
    s0 :: s1 :: s2 :: s3 ::
    _ :: _ :: _ :: _ :: _ :: _ :: _ :: _ ::
    d0 :: d1 :: d2 :: d3 ::
    z0 :: z1 :: z2 :: z3 :: _ =>
    if [g0, g1, g2, g3] = [82, 73, 70, 70] ∧ [w0, w1, w2, w3] = [87, 65, 86, 69] ∧
        [f0, f1, f2, f3] = [102, 109, 116, 32] ∧ [d0, d1, d2, d3] = [100, 97, 116, 97] then
      some (c0 + 256 * c1,
            s0 + 256 * s1 + 65536 * s2 + 16777216 * s3,
            (z0 + 256 * z1 + 65536 * z2 + 16777216 * z3) / 2)
    else
      none
  | _ => none

/-- C7: encoding `N` samples and decoding yields exactly `N` samples,
1 channel, and the fixed 16000 Hz target rate, whenever the payload
fits the 32-bit size field. -/
theorem wav_roundtrip (samples : List ℚ) (h : 2 * samples.length < 2 ^ 32) :
    wavDecode (samplesToWav samples) =
      some (1, TARGET_SAMPLE_RATE, samples.length) := by
  simp only [samplesToWav, wavHeader, u16le, u32le, TARGET_SAMPLE_RATE,
    List.cons_append, List.nil_append, List.append_assoc]
  simp only [wavDecode]
  rw [if_pos (by norm_num)]
  simp only [Option.some.injEq, Prod.mk.injEq]
  refine ⟨by norm_num, by norm_num, ?_⟩
  omega

theorem wav_roundtrip_witness :
    wavDecode (samplesToWav [1 / 2]) = some (1, TARGET_SAMPLE_RATE, 1) :=
  wav_roundtrip [1 / 2] (by norm_num)

theorem u16le_bytes_lt (v : ℕ) : ∀ b ∈ u16le v, b < 256 := by
  intro b hb
  simp only [u16le, List.mem_cons, List.not_mem_nil, or_false] at hb
  rcases hb with h | h <;> subst h <;> exact Nat.mod_lt _ (by norm_num)

theorem u32le_bytes_lt (v : ℕ) : ∀ b ∈ u32le v, b < 256 := by
  intro b hb
  simp only [u32le, List.mem_cons, List.not_mem_nil, or_false] at hb
  rcases hb with h | h | h | h <;> subst h <;> exact Nat.mod_lt _ (by norm_num)

theorem wavData_length (samples : List ℚ) :
    (wavData samples).length = 2 * samples.length := by
  induction samples with
  | nil => rfl
  | cons s rest ih =>
      simp only [wavData, List.length_append, List.length_cons, ih, i16le, u16le]
      simp only [List.length_cons, List.length_nil]
      ring

theorem wavData_bytes_lt (samples : List ℚ) :
    ∀ b ∈ wavData samples, b < 256 := by
  induction samples with
  | nil => intro b hb; simp [wavData] at hb
  | cons s rest ih =>
      intro b hb
      simp only [wavData, List.mem_append] at hb
      rcases hb with h | h
      · exact u16le_bytes_lt _ b h
      · exact ih b h

theorem wavHeader_length (n : ℕ) : (wavHeader n).length = 44 := by
  simp [wavHeader, u16le, u32le]

theorem wavHeader_bytes_lt (n : ℕ) : ∀ b ∈ wavHeader n, b < 256 := by
  intro b hb
  simp only [wavHeader, u16le, u32le, List.mem_append, List.mem_cons,
    List.not_mem_nil, or_false] at hb
  omega

theorem sampleToI16_bounds (s : ℚ) :
    -32768 ≤ sampleToI16 s ∧ sampleToI16 s ≤ 32767 := by
  have hlo : (-32768 : ℚ) ≤ min (max (s * 32767) (-32768)) 32767 :=
    le_min (le_max_right _ _) (by norm_num)
  have hhi : min (max (s * 32767) (-32768)) 32767 ≤ (32767 : ℚ) := min_le_right _ _
  simp only [sampleToI16, truncQ]
  split
  · next h =>
      constructor
      · have h0 : (0 : ℤ) ≤ ⌊min (max (s * 32767) (-32768)) 32767⌋ :=
          Int.floor_nonneg.mpr h
        omega
      · have := Int.floor_le_floor hhi
        rwa [show ⌊(32767 : ℚ)⌋ = 32767 by norm_num] at this
  · next h =>
      constructor
      · have hcc := Int.ceil_le_ceil hlo
        have hc : ((-32768 : ℚ)) = ((-32768 : ℤ) : ℚ) := by norm_num
        rw [hc, Int.ceil_intCast] at hcc
        exact hcc
      · have h0 : ⌈min (max (s * 32767) (-32768)) 32767⌉ ≤ 0 :=
          Int.ceil_le.mpr (by exact_mod_cast le_of_lt (not_le.mp h))
        omega

/-- C8: WAV encoding is total and clamped — for any input samples
(out-of-range values included) the artifact is `44 + 2N` bytes, at
least 44 bytes, starts with `RIFF` and `WAVE`, every byte is a valid
octet, and every encoded sample value lies in the signed 16-bit range. -/
theorem wav_encode_safe (samples : List ℚ) :
    (samplesToWav samples).length = 44 + 2 * samples.length ∧
    44 ≤ (samplesToWav samples).length ∧
    (samplesToWav samples).take 4 = [82, 73, 70, 70] ∧
    ((samplesToWav samples).drop 8).take 4 = [87, 65, 86, 69] ∧
    (∀ b ∈ samplesToWav samples, b < 256) ∧
    (∀ s ∈ samples, -32768 ≤ sampleToI16 s ∧ sampleToI16 s ≤ 32767) := by
  refine ⟨?_, ?_, ?_, ?_, ?_, fun s _ => sampleToI16_bounds s⟩
  · simp [samplesToWav, wavHeader_length, wavData_length]
  · simp [samplesToWav, wavHeader_length, wavData_length]
  · simp only [samplesToWav, wavHeader, u16le, u32le, List.cons_append,
      List.nil_append, List.append_assoc]
    rfl
  · simp only [samplesToWav, wavHeader, u16le, u32le, List.cons_append,
      List.nil_append, List.append_assoc]
    rfl
  · intro b hb
    simp only [samplesToWav, List.mem_append] at hb
    rcases hb with h | h
    · exact wavHeader_bytes_lt _ b h
    · exact wavData_bytes_lt _ b h

theorem wav_encode_safe_witness :
    (samplesToWav [2, -2]).take 4 = [82, 73, 70, 70] ∧
    (-32768 ≤ sampleToI16 2 ∧ sampleToI16 2 ≤ 32767) ∧
    (-32768 ≤ sampleToI16 (-2) ∧ sampleToI16 (-2) ≤ 32767) :=
  ⟨(wav_encode_safe [2, -2]).2.2.1,
   (wav_encode_safe [2, -2]).2.2.2.2.2 2 (by simp),
   (wav_encode_safe [2, -2]).2.2.2.2.2 (-2) (by simp)⟩

/-- Status code `0 = idle` from `overlay.rs`. -/
def STATUS_IDLE : ℕ := 0

/-- Status code `1 = recording` from `overlay.rs`. -/
def STATUS_RECORDING : ℕ := 1

/-- Status code `2 = transcribing` from `overlay.rs`. -/
def STATUS_TRANSCRIBING : ℕ := 2

/-- Status code `3 = result` from `overlay.rs`. -/
def STATUS_RESULT : ℕ := 3

/-- `AppState` from `overlay.rs`: the shared session state — atomic
status code, mutex-guarded waveform, atomic stop flag, mutex-guarded
last transcription result. -/
structure AppState where
  status : ℕ
  waveform : List ℚ
  stop_signal : Bool
  last_result : String
deriving DecidableEq

/-- One observable action on the shared state or an external
collaborator, as performed by the session threads. -/
inductive Effect where
  | setStatus : ℕ → Effect
  | setStop : Bool → Effect
  | setWaveform : List ℚ → Effect
  | setLastResult : String → Effect
  | callTranscribe : List ℕ → Effect
  | callPaste : String → Effect
deriving DecidableEq

/-- Toggle handling in `hotkey_loop` (`main.rs` lines 136-232): the
action is gated on the status read at event time; the returned flag
records whether a capture session was spawned. -/
def hotkeyToggle (st : AppState) : AppState × Bool :=
  if st.status = STATUS_TRANSCRIBING then
    (st, false)
  else if st.status = STATUS_IDLE ∨ st.status = STATUS_RESULT then
    ({ st with status := STATUS_RECORDING, stop_signal := false, waveform := [] }, true)
  else if st.status = STATUS_RECORDING then
    ({ st with stop_signal := true }, false)
  else
    (st, false)

/-- C1: a toggle from Transcribing changes nothing; from Idle or Result
it clears the stop flag, clears the waveform, sets Status=Recording and
spawns a session; from Recording it only sets the stop flag. -/
theorem toggle_state_machine (st : AppState) :
    (st.status = STATUS_TRANSCRIBING → hotkeyToggle st = (st, false)) ∧
    (st.status = STATUS_IDLE ∨ st.status = STATUS_RESULT →
      hotkeyToggle st =
        ({ st with status := STATUS_RECORDING, stop_signal := false,
                   waveform := [] }, true)) ∧
    (st.status = STATUS_RECORDING → hotkeyToggle st = ({ st with stop_signal := true }, false)) := by
  refine ⟨fun h => ?_, fun h => ?_, fun h => ?_⟩
  · simp [hotkeyToggle, h]
  · rcases h with h | h <;>
      simp [hotkeyToggle, h, STATUS_IDLE, STATUS_RECORDING, STATUS_TRANSCRIBING, STATUS_RESULT]
  · simp [hotkeyToggle, h, STATUS_IDLE, STATUS_RECORDING, STATUS_TRANSCRIBING, STATUS_RESULT]

theorem toggle_state_machine_witness :
    hotkeyToggle ⟨STATUS_RECORDING, [1], false, "x"⟩ =
      (⟨STATUS_RECORDING, [1], true, "x"⟩, false) :=
  (toggle_state_machine ⟨STATUS_RECORDING, [1], false, "x"⟩).2.2 rfl

/-- Capture-completion handling in `hotkey_loop` (`main.rs` lines
187-226), as the ordered trace of shared-state writes and collaborator
calls the session thread performs: empty capture → Idle; otherwise
Status=Transcribing, one transcription call with the WAV bytes; on
non-empty text store it, call paste (its error is only logged, so both
outcomes continue identically), Status=Result; on empty text or error
→ Idle. -/
def onCaptureComplete (captured : Except String (List ℚ))
    (transcriber : List ℕ → Except String String)
    (pasteOutcome : String → Except String Unit) : List Effect :=
  match captured with
  | .error _ => [.setStatus STATUS_IDLE]
  | .ok samples =>
    if samples.isEmpty then
      [.setStatus STATUS_IDLE]
    else
      let wav := samplesToWav samples
      .setStatus STATUS_TRANSCRIBING :: .callTranscribe wav ::
        (match transcriber wav with
         | .ok text =>
           if text.isEmpty then
             [.setStatus STATUS_IDLE]
           else
             .setLastResult text :: .callPaste text ::
               (match pasteOutcome text with
                | .ok _ => [.setStatus STATUS_RESULT]
                | .error _ => [.setStatus STATUS_RESULT])
         | .error _ => [.setStatus STATUS_IDLE])

/-- Number of transcription calls in a trace. -/
def countTranscribe (es : List Effect) : ℕ :=
  es.countP fun e => match e with | .callTranscribe _ => true | _ => false

/-- Number of paste calls in a trace. -/
def countPaste (es : List Effect) : ℕ :=
  es.countP fun e => match e with | .callPaste _ => true | _ => false

/-- The last status value written in a trace. -/
def finalStatus (es : List Effect) : Option ℕ :=
  (es.filterMap fun e => match e with | .setStatus s => some s | _ => none).getLast?

theorem onCaptureComplete_ok_ne (s : List ℚ) (hs : s.isEmpty = false)
    (tr : List ℕ → Except String String) (pr : String → Except String Unit) :
    onCaptureComplete (.ok s) tr pr =
      .setStatus STATUS_TRANSCRIBING :: .callTranscribe (samplesToWav s) ::
        (match tr (samplesToWav s) with
         | .ok text =>
           if text.isEmpty then [.setStatus STATUS_IDLE]
           else [.setLastResult text, .callPaste text, .setStatus STATUS_RESULT]
         | .error _ => [.setStatus STATUS_IDLE]) := by
  simp only [onCaptureComplete, hs, Bool.false_eq_true, if_false]
  rcases tr (samplesToWav s) with e | text
  · rfl
  · simp only
    split
    · rfl
    · rcases pr text with u | e <;> rfl

/-- C2: on capture completion — empty capture goes to Idle with no
transcription call; a non-empty capture first sets Transcribing and
makes exactly one transcription call; success with non-empty text
stores the text, makes exactly one paste call with it and ends on
Result, with the same trace whatever paste returns; success with empty
text ends on Idle with no paste call; failure ends on Idle. -/
theorem capture_completion (captured : Except String (List ℚ))
    (tr : List ℕ → Except String String) (pr pr2 : String → Except String Unit) :
    (captured = .ok [] →
      onCaptureComplete captured tr pr = [.setStatus STATUS_IDLE] ∧
      countTranscribe (onCaptureComplete captured tr pr) = 0) ∧
    (∀ s : List ℚ, captured = .ok s → s ≠ [] →
      (onCaptureComplete captured tr pr).take 1 = [.setStatus STATUS_TRANSCRIBING] ∧
      countTranscribe (onCaptureComplete captured tr pr) = 1 ∧
      (∀ text, tr (samplesToWav s) = .ok text → text ≠ "" →
        onCaptureComplete captured tr pr =
          [.setStatus STATUS_TRANSCRIBING, .callTranscribe (samplesToWav s),
           .setLastResult text, .callPaste text, .setStatus STATUS_RESULT] ∧
        countPaste (onCaptureComplete captured tr pr) = 1 ∧
        finalStatus (onCaptureComplete captured tr pr) = some STATUS_RESULT) ∧
      (tr (samplesToWav s) = .ok "" →
        finalStatus (onCaptureComplete captured tr pr) = some STATUS_IDLE ∧
        countPaste (onCaptureComplete captured tr pr) = 0) ∧
      (∀ emsg, tr (samplesToWav s) = .error emsg →
        finalStatus (onCaptureComplete captured tr pr) = some STATUS_IDLE ∧
        countPaste (onCaptureComplete captured tr pr) = 0)) ∧
    onCaptureComplete captured tr pr = onCaptureComplete captured tr pr2 := by
  refine ⟨fun h => ?_, fun s hcap hs => ?_, ?_⟩
  · subst h
    exact ⟨rfl, rfl⟩
  · subst hcap
    have hie : s.isEmpty = false := by
      cases s
      · exact absurd rfl hs
      · rfl
    rw [onCaptureComplete_ok_ne s hie tr pr]
    rcases htr : tr (samplesToWav s) with emsg | text
    · refine ⟨rfl, rfl, fun text h2 _ => ?_, fun h2 => ?_, fun e2 h2 => ?_⟩
      · cases h2
      · cases h2
      · exact ⟨rfl, rfl⟩
    · by_cases hte : text = ""
      · subst hte
        refine ⟨rfl, rfl, fun text2 h2 hne2 => ?_, fun _ => ⟨rfl, rfl⟩, fun e2 h2 => ?_⟩
        · cases h2
          exact absurd rfl hne2
        · cases h2
      · have hteb : text.isEmpty = false := by
          cases htext : text.isEmpty
          · rfl
          · exact absurd ((String.isEmpty_iff text).mp htext) hte
        refine ⟨rfl, ?_, fun text2 h2 hne2 => ?_, fun h2 => ?_, fun e2 h2 => ?_⟩
        · simp only [hteb, Bool.false_eq_true, if_false]
          rfl
        · cases h2
          simp only [hteb, Bool.false_eq_true, if_false]
          exact ⟨trivial, rfl, rfl⟩
        · cases h2
          exact absurd rfl hte
        · cases h2
  · rcases captured with emsg | s
    · rfl
    · rcases hie : s.isEmpty with h | h
      · rw [onCaptureComplete_ok_ne s hie tr pr, onCaptureComplete_ok_ne s hie tr pr2]
      · simp only [onCaptureComplete, hie, if_true]

theorem capture_completion_witness :
    onCaptureComplete (.ok [1]) (fun _ => .ok "hello world") (fun _ => .ok ()) =
      [.setStatus STATUS_TRANSCRIBING, .callTranscribe (samplesToWav [1]),
       .setLastResult "hello world", .callPaste "hello world",
       .setStatus STATUS_RESULT] :=
  (((capture_completion (.ok [1]) (fun _ => .ok "hello world")
      (fun _ => .ok ()) (fun _ => .ok ())).2.1 [1] rfl (by decide)).2.2.1
    "hello world" rfl (by decide)).1

/-- Shared-state writes of one `OverlayApp::update` pass (`overlay.rs`):
with the status read at entry, the elapsed idle time (seconds since
`idle_since`, `none` while active), the current opacity, and whether the
on-screen Stop button was clicked. Lines 112-130: when hidden long
enough in Result and faded below 0.05, the overlay stores
`STATUS_IDLE`; lines 375-377: a Stop click stores the stop flag. -/
def overlayUpdateWrites (status : ℕ) (idleElapsed : Option ℚ) (opacity : ℚ)
    (stopClicked : Bool) : List Effect :=
  let hideDelay : ℚ := if status = STATUS_RESULT then 6 else 3
  let shouldHide : Bool :=
    match idleElapsed with
    | some since => decide (hideDelay < since)
    | none => false
  (if shouldHide ∧ (status = STATUS_IDLE ∨ status = STATUS_RESULT) ∧
      status = STATUS_RESULT ∧ opacity < 1 / 20 then
    [Effect.setStatus STATUS_IDLE]
  else []) ++
  (if status = STATUS_RECORDING ∧ stopClicked then [Effect.setStop true] else [])

/-- C9 counterexample: the claim that the display collaborator's only
shared-state write is the stop flag is false — when the Result display
has faded out, the overlay itself writes `Status = Idle`. -/
theorem overlay_writes_claim_false :
    ¬ ∀ (status : ℕ) (idleElapsed : Option ℚ) (opacity : ℚ) (stopClicked : Bool),
        ∀ e ∈ overlayUpdateWrites status idleElapsed opacity stopClicked,
          ∃ b, e = Effect.setStop b := by
  intro h
  have hlist : overlayUpdateWrites STATUS_RESULT (some 7) (1 / 25) false =
      [Effect.setStatus STATUS_IDLE] := by
    norm_num [overlayUpdateWrites, STATUS_RESULT, STATUS_IDLE, STATUS_RECORDING]
  have hmem : Effect.setStatus STATUS_IDLE ∈
      overlayUpdateWrites STATUS_RESULT (some 7) (1 / 25) false := by
    rw [hlist]; exact List.mem_singleton.mpr rfl
  obtain ⟨b, hb⟩ := h STATUS_RESULT (some 7) (1 / 25) false _ hmem
  exact Effect.noConfusion hb

/-- C9 (amended): every shared-state write the display collaborator
performs is either the stop-request flag or the single Result-to-Idle
status write after the Result display fades; it never writes the
waveform buffer or the last result text. -/
theorem overlay_writes_amended (status : ℕ) (idleElapsed : Option ℚ)
    (opacity : ℚ) (stopClicked : Bool) :
    ∀ e ∈ overlayUpdateWrites status idleElapsed opacity stopClicked,
      e = Effect.setStop true ∨
        (status = STATUS_RESULT ∧ e = Effect.setStatus STATUS_IDLE) := by
  intro e he
  simp only [overlayUpdateWrites, List.mem_append] at he
  rcases he with h | h
  · rw [List.mem_ite_nil_right] at h
    exact Or.inr ⟨h.1.2.2.1, List.mem_singleton.mp h.2⟩
  · rw [List.mem_ite_nil_right] at h
    exact Or.inl (List.mem_singleton.mp h.2)

theorem overlay_writes_amended_witness :
    Effect.setStop true = Effect.setStop true ∨
      (STATUS_RECORDING = STATUS_RESULT ∧
        Effect.setStop true = Effect.setStatus STATUS_IDLE) :=
  overlay_writes_amended STATUS_RECORDING none 1 true (Effect.setStop true) (by
    have hlist : overlayUpdateWrites STATUS_RECORDING none 1 true =
        [Effect.setStop true] := by
      norm_num [overlayUpdateWrites, STATUS_RESULT, STATUS_IDLE, STATUS_RECORDING]
    rw [hlist]
    exact List.mem_singleton.mpr rfl)
